import Mathlib

/-!
Verification development for the Knotty MCP server (OpenAPI/Swagger
acquisition, normalization, caching and search pipeline).

The TypeScript sources are shallowly embedded as executable Lean
definitions:

* raw JSON/YAML documents are modelled by the inductive `Json` (numbers as
  `Int`, which suffices for every property considered here);
* JavaScript string operations (`includes`, `toLowerCase`, `trim`,
  `split(/\s+/)`) are modelled by executable functions on `String`;
* the single-slot TTL cache (`src/cache/cache.ts`) is modelled as a
  labelled transition system over the JavaScript event loop: each code
  segment between two `await` points is one atomic step;
* JS string literals from the sources are reproduced verbatim except that
  an ASCII apostrophe inside a literal is written out as a word.

Definitions keep the source names where Lean allows it.
-/

namespace Knotty

/-! ## JSON values (raw parsed documents) -/

/-- Raw JSON value, as produced by parsing a response body.  Numbers are
modelled as integers; no claim depends on non-integral numerics. -/
inductive Json where
  | null : Json
  | bool (b : Bool) : Json
  | num (n : Int) : Json
  | str (s : String) : Json
  | arr (elems : List Json) : Json
  | obj (fields : List (String × Json)) : Json

/-- Field lookup on a JSON object (first binding wins, as JS object keys
are unique).  Non-objects have no fields. -/
def Json.lookup : Json → String → Option Json
  | .obj fields, k => (fields.find? (fun f => f.1 == k)).map (fun f => f.2)
  | _, _ => none

/-- JS truthiness of a JSON value: null, false, 0 and the empty string are
falsy; arrays and objects are always truthy. -/
def Json.truthy : Json → Bool
  | .null => false
  | .bool b => b
  | .num n => n != 0
  | .str s => s != ""
  | .arr _ => true
  | .obj _ => true

/-- Key presence test, the JS `in` operator on an object. -/
def Json.hasKey (j : Json) (k : String) : Bool :=
  (j.lookup k).isSome

/-- Lookup returning the field only when it is truthy, the usual JS
`if (obj.field)` guard. -/
def Json.lookupTruthy (j : Json) (k : String) : Option Json :=
  match j.lookup k with
  | some v => if v.truthy then some v else none
  | none => none

/-- The string value of a field, when the field holds a string. -/
def Json.strField (j : Json) (k : String) : Option String :=
  match j.lookup k with
  | some (.str s) => some s
  | _ => none

/-- The array elements of a field, when the field holds an array. -/
def Json.arrField (j : Json) (k : String) : List Json :=
  match j.lookup k with
  | some (.arr xs) => xs
  | _ => []

/-- The object bindings of a field, when the field holds an object. -/
def Json.objField (j : Json) (k : String) : List (String × Json) :=
  match j.lookup k with
  | some (.obj fs) => fs
  | _ => []

/-- Rendering of an optional JSON value inside a JS template literal:
an absent value prints as the string undefined. -/
def jsTemplateStr : Option Json → String
  | none => "undefined"
  | some .null => "null"
  | some (.bool b) => if b then "true" else "false"
  | some (.num n) => toString n
  | some (.str s) => s
  | some (.arr _) => ""
  | some (.obj _) => "[object Object]"

/-! ## JavaScript string primitives -/

/-- Substring containment on character lists (the JS `String.includes`).
The empty needle is contained in every haystack. -/
def listContainsSub (hay sub : List Char) : Bool :=
  match hay with
  | [] => sub.isEmpty
  | c :: t => sub.isPrefixOf (c :: t) || listContainsSub t sub

/-- JS `haystack.includes(needle)`. -/
def jsIncludes (s sub : String) : Bool :=
  listContainsSub s.data sub.data

/-- JS `s.toLowerCase()`, characterwise (ASCII suffices here). -/
def jsToLower (s : String) : String :=
  ⟨s.data.map Char.toLower⟩

/-- JS `s.trim()`: drop whitespace from both ends. -/
def jsTrim (s : String) : String :=
  ⟨((s.data.dropWhile Char.isWhitespace).reverse.dropWhile Char.isWhitespace).reverse⟩

/-- JS `s.startsWith(pre)`. -/
def jsStartsWith (s pre : String) : Bool :=
  pre.data.isPrefixOf s.data

/-- JS `query.split(/\s+/)` followed by dropping empty pieces, as done by
the search code (`.filter((t) => t.length > 0)`). -/
def splitTerms (s : String) : List String :=
  (s.split Char.isWhitespace).filter (fun t => t ≠ "")

theorem listContainsSub_empty (hay : List Char) : listContainsSub hay [] = true := by
  cases hay <;> simp [listContainsSub, List.isPrefixOf]

theorem jsIncludes_empty (s : String) : jsIncludes s "" = true := by
  simpa [jsIncludes] using listContainsSub_empty s.data

theorem listContainsSub_append_right (x y sub : List Char)
    (h : listContainsSub y sub = true) : listContainsSub (x ++ y) sub = true := by
  induction x with
  | nil => simpa using h
  | cons c t ih =>
    simp only [List.cons_append, listContainsSub, Bool.or_eq_true]
    exact Or.inr ih

/-! ## Normalized data model (`src/parser/types.ts`) -/

/-- The shape of one normalized-schema node; the parameter `σ` stands for
child schemas.  Fields mirror the `NormalizedSchema` interface; raw JSON
values copied over unchanged by the parser are kept as `Json`. -/
structure SchemaFields (σ : Type) where
  type : Option Json
  format : Option Json
  description : Option Json
  enum : Option Json
  defaultVal : Option Json
  exampleVal : Option Json
  minimum : Option Json
  maximum : Option Json
  minLength : Option Json
  maxLength : Option Json
  pattern : Option Json
  nullable : Option Bool
  items : Option σ
  required : Option Json
  properties : Option (List (String × σ))
  oneOf : Option (List σ)
  anyOf : Option (List σ)
  allOf : Option (List σ)
  ref : Option String

/-- Recursive normalized schema (`NormalizedSchema`). -/
inductive NormalizedSchema where
  | node (fields : SchemaFields NormalizedSchema)

/-- The fields of a normalized schema node. -/
def NormalizedSchema.fields : NormalizedSchema → SchemaFields NormalizedSchema
  | .node f => f

/-- A schema node with every optional field absent. -/
def emptyFields : SchemaFields NormalizedSchema :=
  ⟨none, none, none, none, none, none, none, none, none, none, none, none,
   none, none, none, none, none, none, none⟩

/-- The opaque object stub `\x7b type: 'object' \x7d` returned at the
recursion cap and for absent schemas. -/
def stubSchema : NormalizedSchema :=
  .node { emptyFields with type := some (.str "object") }

structure NormalizedParameter where
  name : Option Json
  description : Option Json
  required : Bool
  deprecated : Bool
  schema : NormalizedSchema
  exampleVal : Option Json

structure NormalizedRequestBody where
  description : Option Json
  required : Bool
  contentTypes : List String
  schema : NormalizedSchema
  examples : Option Json

structure NormalizedResponse where
  statusCode : String
  description : Json
  contentTypes : List String
  schema : Option NormalizedSchema

structure NormalizedSecurity where
  type : String
  name : String
  loc : Option Json
  scheme : Option Json
  description : Option Json
  scopes : Option Json

structure NormalizedEndpoint where
  path : String
  method : String
  operationId : Option String
  summary : Option String
  description : Option String
  tags : List String
  deprecated : Bool
  pathParameters : List NormalizedParameter
  queryParameters : List NormalizedParameter
  headerParameters : List NormalizedParameter
  cookieParameters : List NormalizedParameter
  requestBody : Option NormalizedRequestBody
  responses : List NormalizedResponse
  security : List NormalizedSecurity

structure NormalizedApiSpec where
  title : Option Json
  version : Option Json
  description : Option Json
  baseUrl : Option String
  servers : List (Option Json × Option Json)
  endpoints : List NormalizedEndpoint
  securitySchemes : List (String × NormalizedSecurity)
  totalEndpoints : Nat
  fetchedAt : Nat
  sourceUrl : String
  specVersion : String

/-! ## Query/Search component (`ToolHandler.searchEndpoints`) -/

/-- The normalized query: `query.toLowerCase().trim()`. -/
def normQuery (query : String) : String :=
  jsTrim (jsToLower query)

/-- JS `optField?.toLowerCase() === q` (absent field compares unequal). -/
def optLowerEq (o : Option String) (q : String) : Bool :=
  match o with
  | some s => jsToLower s == q
  | none => false

/-- JS `optField?.toLowerCase().includes(sub)` (false when absent). -/
def optIncludesLower (o : Option String) (sub : String) : Bool :=
  match o with
  | some s => jsIncludes (jsToLower s) sub
  | none => false

/-- Relevance score of one endpoint, as accumulated by
`ToolHandler.searchEndpoints`. -/
def scoreEndpoint (nq : String) (terms : List String) (e : NormalizedEndpoint) : Nat :=
  let s1 : Nat :=
    if optLowerEq e.operationId nq then 100
    else if optIncludesLower e.operationId nq then 50
    else 0
  let s2 : Nat := if jsIncludes (jsToLower e.path) nq then 40 else 0
  let s3 : Nat := if optIncludesLower e.summary nq then 30 else 0
  let s4 : Nat := if optIncludesLower e.description nq then 20 else 0
  let s5 : Nat := if e.tags.any (fun t => jsIncludes (jsToLower t) nq) then 15 else 0
  terms.foldl (fun acc term =>
      acc + (if jsIncludes (jsToLower e.path) term then 5 else 0)
          + (if optIncludesLower e.operationId term then 5 else 0)
          + (if optIncludesLower e.summary term then 3 else 0)
          + (if optIncludesLower e.description term then 2 else 0))
    (s1 + s2 + s3 + s4 + s5)

/-- Method and tag filters applied before scoring (the JS guards are
truthiness tests, so an empty-string filter is a no-op). -/
def filterEndpoints (endpoints : List NormalizedEndpoint)
    (methodF tagF : Option String) : List NormalizedEndpoint :=
  let e1 :=
    match methodF with
    | some m =>
      if m = "" then endpoints
      else endpoints.filter (fun ep => jsToLower ep.method == jsToLower m)
    | none => endpoints
  match tagF with
  | some tg =>
    if tg = "" then e1
    else e1.filter (fun ep => ep.tags.any (fun t => jsIncludes (jsToLower t) (jsToLower tg)))
  | none => e1

/-- Ranking order used to model the stable JS
`sort((a, b) => b.score - a.score)`: position-annotated entries are
ordered by score descending, ties by original position ascending. -/
def rankRel {α : Type} (a b : Nat × (α × Nat)) : Prop :=
  b.2.2 < a.2.2 ∨ (a.2.2 = b.2.2 ∧ a.1 ≤ b.1)

instance {α : Type} : DecidableRel (@rankRel α) := fun a b => by
  unfold rankRel; infer_instance

instance {α : Type} : IsTotal (Nat × (α × Nat)) rankRel :=
  ⟨by intro a b; unfold rankRel; omega⟩

instance {α : Type} : IsTrans (Nat × (α × Nat)) rankRel :=
  ⟨by intro a b c; unfold rankRel; omega⟩

/-- Stable sort of scored entries by descending score: annotate with the
original position, sort by the total order `rankRel`, strip the
annotation.  This is exactly the ECMAScript guarantee for `Array.sort`
with comparator `(a, b) => b.score - a.score`. -/
def sortScoredDesc {α : Type} (l : List (α × Nat)) : List (α × Nat) :=
  (l.enum.insertionSort rankRel).map (fun p => p.2)

/-- `ToolHandler.searchEndpoints`: filter, score, drop zero scores, sort
by descending score (stable), return the endpoints. -/
def searchEndpoints (spec : NormalizedApiSpec) (query : String)
    (methodF tagF : Option String) : List NormalizedEndpoint :=
  let normalizedQuery := normQuery query
  let queryTerms := splitTerms normalizedQuery
  let endpoints := filterEndpoints spec.endpoints methodF tagF
  let scored := endpoints.map (fun e => (e, scoreEndpoint normalizedQuery queryTerms e))
  (sortScoredDesc (scored.filter (fun p => 0 < p.2))).map (fun p => p.1)

/-- Claim-side scoring function, written from the words of the spec:
additive signals for the whole query (exact operationId 100, else
substring 50; path 40; summary 30; description 20; any tag 15) plus
stacking per-term bonuses (path 5, operationId 5, summary 3,
description 2). -/
def specScore (nq : String) (terms : List String) (e : NormalizedEndpoint) : Nat :=
  (if optLowerEq e.operationId nq then 100
   else if optIncludesLower e.operationId nq then 50
   else 0)
  + (if jsIncludes (jsToLower e.path) nq then 40 else 0)
  + (if optIncludesLower e.summary nq then 30 else 0)
  + (if optIncludesLower e.description nq then 20 else 0)
  + (if e.tags.any (fun t => jsIncludes (jsToLower t) nq) then 15 else 0)
  + (terms.map (fun term =>
        (if jsIncludes (jsToLower e.path) term then 5 else 0)
      + (if optIncludesLower e.operationId term then 5 else 0)
      + (if optIncludesLower e.summary term then 3 else 0)
      + (if optIncludesLower e.description term then 2 else 0))).sum

/-- The filtered endpoints that score positively under the claim-side
score, with their scores. -/
def scoredPositive (spec : NormalizedApiSpec) (query : String)
    (methodF tagF : Option String) : List (NormalizedEndpoint × Nat) :=
  ((filterEndpoints spec.endpoints methodF tagF).map
      (fun e => (e, specScore (normQuery query) (splitTerms (normQuery query)) e))).filter
    (fun p => 0 < p.2)

/-- Claim-side search result: the positively scoring filtered endpoints,
stably sorted by descending claim-side score. -/
def specSearchEndpoints (spec : NormalizedApiSpec) (query : String)
    (methodF tagF : Option String) : List NormalizedEndpoint :=
  (sortScoredDesc (scoredPositive spec query methodF tagF)).map (fun p => p.1)

theorem foldl_add4 {α : Type} (f1 f2 f3 f4 : α → Nat) (l : List α) (init : Nat) :
    l.foldl (fun acc x => acc + f1 x + f2 x + f3 x + f4 x) init
      = init + (l.map (fun x => f1 x + f2 x + f3 x + f4 x)).sum := by
  induction l generalizing init with
  | nil => simp
  | cons a t ih =>
    simp only [List.foldl_cons, List.map_cons, List.sum_cons]
    rw [ih]
    omega

theorem scoreEndpoint_eq_specScore (nq : String) (terms : List String)
    (e : NormalizedEndpoint) : scoreEndpoint nq terms e = specScore nq terms e := by
  unfold scoreEndpoint specScore
  rw [foldl_add4]

theorem sortScoredDesc_perm {α : Type} (l : List (α × Nat)) :
    (sortScoredDesc l).Perm l := by
  unfold sortScoredDesc
  have h1 := (List.perm_insertionSort rankRel l.enum).map (fun p : Nat × (α × Nat) => p.2)
  simpa [List.enum_map_snd] using h1

theorem sorted_sortScoredDesc {α : Type} (l : List (α × Nat)) :
    List.Sorted (fun p q : α × Nat => q.2 ≤ p.2) (sortScoredDesc l) := by
  unfold sortScoredDesc
  have hs := List.sorted_insertionSort rankRel l.enum
  exact List.Pairwise.map _ (fun a b hab => by
    rcases hab with h | ⟨h, _⟩
    · exact Nat.le_of_lt h
    · exact Nat.le_of_eq h.symm) hs

theorem forty_le_scoreEndpoint_empty (terms : List String) (e : NormalizedEndpoint) :
    40 ≤ scoreEndpoint "" terms e := by
  simp only [scoreEndpoint, jsIncludes_empty, if_true]
  rw [foldl_add4]
  omega

/-- C3: `searchEndpoints` applies the method/tag filters first, scores the
remaining endpoints additively over the lowercase trimmed query exactly as
the spec describes (exact operationId 100 xor substring 50, path 40,
summary 30, description 20, any tag 15, stacking per-term bonuses
5/5/3/2), and returns exactly the positively scoring endpoints, sorted by
descending score with ties preserving the original endpoint order (the
stable-sort order `rankRel`). -/
theorem claim_C3_search_scoring (spec : NormalizedApiSpec) (query : String)
    (methodF tagF : Option String) :
    searchEndpoints spec query methodF tagF = specSearchEndpoints spec query methodF tagF
    ∧ List.Sorted (fun p q : NormalizedEndpoint × Nat => q.2 ≤ p.2)
        (sortScoredDesc (scoredPositive spec query methodF tagF))
    ∧ (sortScoredDesc (scoredPositive spec query methodF tagF)).Perm
        (scoredPositive spec query methodF tagF)
    ∧ ∀ p ∈ sortScoredDesc (scoredPositive spec query methodF tagF),
        p.2 = specScore (normQuery query) (splitTerms (normQuery query)) p.1 := by
  refine ⟨?_, sorted_sortScoredDesc _, sortScoredDesc_perm _, ?_⟩
  · unfold searchEndpoints specSearchEndpoints scoredPositive
    simp only [scoreEndpoint_eq_specScore]
  · intro p hp
    have hmem : p ∈ scoredPositive spec query methodF tagF :=
      ((sortScoredDesc_perm _).mem_iff).mp hp
    unfold scoredPositive at hmem
    have hmap := List.mem_filter.mp hmem
    obtain ⟨e, _, rfl⟩ := List.mem_map.mp hmap.1
    rfl

/-- C10: for an empty or whitespace-only query the normalized query is the
empty string, every filtered endpoint scores at least 40 (the empty string
is a substring of its path), so no endpoint is excluded by the zero-score
rule and the search returns every endpoint passing the method/tag
filters. -/
theorem claim_C10_empty_query (spec : NormalizedApiSpec) (query : String)
    (methodF tagF : Option String) (h : normQuery query = "") :
    (searchEndpoints spec query methodF tagF).Perm
        (filterEndpoints spec.endpoints methodF tagF)
    ∧ ∀ e ∈ filterEndpoints spec.endpoints methodF tagF,
        40 ≤ scoreEndpoint (normQuery query) (splitTerms (normQuery query)) e := by
  constructor
  · unfold searchEndpoints
    rw [h]
    dsimp only
    have hfil :
        ((filterEndpoints spec.endpoints methodF tagF).map
            (fun e => (e, scoreEndpoint "" (splitTerms "") e))).filter
          (fun p => 0 < p.2)
        = (filterEndpoints spec.endpoints methodF tagF).map
            (fun e => (e, scoreEndpoint "" (splitTerms "") e)) := by
      apply List.filter_eq_self.mpr
      intro p hp
      obtain ⟨e, _, rfl⟩ := List.mem_map.mp hp
      have h40 := forty_le_scoreEndpoint_empty (splitTerms "") e
      simp only [decide_eq_true_eq]
      omega
    rw [hfil]
    have hperm := (sortScoredDesc_perm
        ((filterEndpoints spec.endpoints methodF tagF).map
          (fun e => (e, scoreEndpoint "" (splitTerms "") e)))).map
      (fun p : NormalizedEndpoint × Nat => p.1)
    simpa [List.map_map, Function.comp_def, List.map_id'] using hperm
  · intro e _
    rw [h]
    exact forty_le_scoreEndpoint_empty _ e

/-- A one-endpoint description used to instantiate search theorems. -/
def wEndpoint : NormalizedEndpoint :=
  { path := "/users", method := "get", operationId := some "getUsers",
    summary := none, description := none, tags := [], deprecated := false,
    pathParameters := [], queryParameters := [], headerParameters := [],
    cookieParameters := [], requestBody := none, responses := [],
    security := [] }

/-- A one-endpoint normalized description. -/
def wSpec : NormalizedApiSpec :=
  { title := none, version := none, description := none, baseUrl := none,
    servers := [], endpoints := [wEndpoint], securitySchemes := [],
    totalEndpoints := 1, fetchedAt := 0, sourceUrl := "", specVersion := "" }

/-- C10 witness: a whitespace-only query against a one-endpoint
description returns that endpoint rather than an empty result. -/
theorem claim_C10_empty_query_witness :
    (searchEndpoints wSpec " " none none).Perm
      (filterEndpoints wSpec.endpoints none none) :=
  (claim_C10_empty_query wSpec " " none none (by decide)).1

/-! ## Cache component (`SpecCache`, `src/cache/cache.ts`)

The cache stores one `NormalizedApiSpec`; its logic never inspects the
stored description, so descriptions are modelled by opaque identifiers
(`SpecD`).  A group of overlapping `refresh()` calls is modelled as a
labelled transition system over the single-threaded JS event loop: each
synchronous code segment between two suspension points is one atomic
step.  The clock is held constant during the episode (`CacheCfg.now`);
the producer (`onRefresh`) is invoked at most by the caller that set
`isRefreshing`, and its single outcome is the parameter
`CacheCfg.producer`.  The overlap hypothesis of the claims (all calls
begin while the refresh is in flight) is encoded as the guard on the
producer-completion step: it fires only after every caller has executed
its entry segment. -/

/-- Opaque identifier of a normalized description held by the cache. -/
abbrev SpecD := Nat

/-- `CacheEntry`: data plus creation and expiry timestamps. -/
structure CacheEntry where
  data : SpecD
  createdAt : Nat
  expiresAt : Nat
deriving DecidableEq, Repr

/-- `SpecCache.get()`: the stored description unless the slot is empty or
expired (`new Date() > expiresAt`). -/
def cacheGet (now : Nat) : Option CacheEntry → Option SpecD
  | none => none
  | some e => if e.expiresAt < now then none else some e.data

/-- Parameters of one refresh episode. -/
structure CacheCfg where
  ttl : Nat
  now : Nat
  initSlot : Option CacheEntry
  producer : Except Unit SpecD
  n : Nat

/-- Control state of one `refresh()` caller: not yet entered; awaiting the
producer it invoked; in the 100ms polling loop; resolved with a
description; or rejected. -/
inductive CallerSt where
  | ready
  | fetching
  | polling
  | doneOk (d : SpecD)
  | doneErr
deriving DecidableEq, Repr

/-- Whether a caller has resolved or rejected. -/
def CallerSt.isDone : CallerSt → Bool
  | .doneOk _ => true
  | .doneErr => true
  | _ => false

/-- Global state of the episode. -/
structure CacheSys where
  slot : Option CacheEntry
  refreshing : Bool
  callers : List CallerSt
  fetchCount : Nat
deriving DecidableEq, Repr

/-- Initial state: slot as configured, no refresh in flight, all callers
about to enter `refresh()`, producer never invoked. -/
def initSys (cfg : CacheCfg) : CacheSys :=
  ⟨cfg.initSlot, false, List.replicate cfg.n .ready, 0⟩

/-- One atomic event-loop step of the refresh episode, following
`SpecCache.refresh` line by line. -/
inductive CacheStep (cfg : CacheCfg) : CacheSys → CacheSys → Prop where
  | start (s : CacheSys) (i : Nat)
      (hc : s.callers[i]? = some .ready) (hr : s.refreshing = false) :
      CacheStep cfg s
        ⟨s.slot, true, s.callers.set i .fetching, s.fetchCount + 1⟩
  | startWait (s : CacheSys) (i : Nat)
      (hc : s.callers[i]? = some .ready) (hr : s.refreshing = true) :
      CacheStep cfg s
        ⟨s.slot, s.refreshing, s.callers.set i .polling, s.fetchCount⟩
  | fetchOk (s : CacheSys) (i : Nat) (d : SpecD)
      (hc : s.callers[i]? = some .fetching) (hp : cfg.producer = .ok d)
      (hnr : CallerSt.ready ∉ s.callers) :
      CacheStep cfg s
        ⟨some ⟨d, cfg.now, cfg.now + cfg.ttl⟩, false,
         s.callers.set i (.doneOk d), s.fetchCount⟩
  | fetchFail (s : CacheSys) (i : Nat)
      (hc : s.callers[i]? = some .fetching) (hp : cfg.producer = .error ())
      (hnr : CallerSt.ready ∉ s.callers) :
      CacheStep cfg s
        ⟨s.slot, false, s.callers.set i .doneErr, s.fetchCount⟩
  | wake (s : CacheSys) (i : Nat)
      (hc : s.callers[i]? = some .polling) (hr : s.refreshing = false) :
      CacheStep cfg s
        ⟨s.slot, s.refreshing,
         s.callers.set i
           (match cacheGet cfg.now s.slot with
            | some d => .doneOk d
            | none => .doneErr),
         s.fetchCount⟩

/-- Reachability from the initial state of the episode. -/
def Reach (cfg : CacheCfg) (s : CacheSys) : Prop :=
  Relation.ReflTransGen (CacheStep cfg) (initSys cfg) s

/-- All callers of the episode have resolved or rejected. -/
def allDone (s : CacheSys) : Prop :=
  ∀ c ∈ s.callers, c.isDone = true

theorem getElem?_some_lt {α : Type} {l : List α} {i : Nat} {a : α}
    (h : l[i]? = some a) : i < l.length := by
  by_contra hlt
  rw [List.getElem?_eq_none (Nat.le_of_not_lt hlt)] at h
  exact Option.noConfusion h

theorem mem_of_getElem?_some {α : Type} {l : List α} {i : Nat} {a : α}
    (h : l[i]? = some a) : a ∈ l :=
  List.mem_iff_getElem?.mpr ⟨i, h⟩

/-- Every caller other than `i` is still entering or polling. -/
def onlyWaiting (l : List CallerSt) (i : Nat) : Prop :=
  ∀ j c, j ≠ i → l[j]? = some c → c = .ready ∨ c = .polling

theorem count_set_eq_one {α : Type} [DecidableEq α] :
    ∀ (l : List α) (i : Nat) (x : α), i < l.length →
    (∀ j c, j ≠ i → l[j]? = some c → c ≠ x) → (l.set i x).count x = 1 := by
  intro l
  induction l with
  | nil => intro i x hlt _; exact absurd hlt (by simp)
  | cons a t ih =>
    intro i x hlt hother
    cases i with
    | zero =>
      have hzero : t.count x = 0 := by
        rw [List.count_eq_zero]
        intro hmem
        obtain ⟨j, hj⟩ := List.mem_iff_getElem?.mp hmem
        exact hother (j + 1) x (by omega) (by rw [List.getElem?_cons_succ]; exact hj) rfl
      simp [List.count_cons_self, hzero]
    | succ n =>
      have hax : a ≠ x :=
        hother 0 a (by omega) List.getElem?_cons_zero
      have hrec : (t.set n x).count x = 1 := by
        refine ih n x (by simpa using hlt) ?_
        intro j c hji hj
        exact hother (j + 1) c (by omega) (by rw [List.getElem?_cons_succ]; exact hj)
      simp [List.set, List.count_cons, hrec, hax]

theorem count_set_preserved {α : Type} [DecidableEq α] :
    ∀ (l : List α) (i : Nat) (x y z : α), l[i]? = some y → y ≠ x → z ≠ x →
    (l.set i z).count x = l.count x := by
  intro l
  induction l with
  | nil => intro i x y z hi _ _; simp at hi
  | cons a t ih =>
    intro i x y z hi hyx hzx
    cases i with
    | zero =>
      rw [List.getElem?_cons_zero] at hi
      have hay : a = y := Option.some.inj hi
      simp [List.set, List.count_cons, hzx, hay ▸ hyx]
    | succ n =>
      rw [List.getElem?_cons_succ] at hi
      simp [List.set, List.count_cons, ih n x y z hi hyx hzx]

/-- Episode invariant: either nobody has entered the guarded section yet,
or exactly one caller holds the in-flight flag and has invoked the
producer once, or the single producer invocation has completed and the
slot and caller outcomes reflect its result. -/
def Inv (cfg : CacheCfg) (s : CacheSys) : Prop :=
  s.callers.length = cfg.n ∧
  ((s.refreshing = false ∧ s.fetchCount = 0 ∧ s.slot = cfg.initSlot ∧
      ∀ c ∈ s.callers, c = .ready) ∨
   (s.refreshing = true ∧ s.fetchCount = 1 ∧ s.slot = cfg.initSlot ∧
      ∃ i, s.callers[i]? = some .fetching ∧ onlyWaiting s.callers i) ∨
   (s.refreshing = false ∧ s.fetchCount = 1 ∧
      ((∃ d, cfg.producer = .ok d ∧
          s.slot = some ⟨d, cfg.now, cfg.now + cfg.ttl⟩ ∧
          ∀ c ∈ s.callers, c = .polling ∨ c = .doneOk d) ∨
       (cfg.producer = .error () ∧ s.slot = cfg.initSlot ∧
          ((cacheGet cfg.now cfg.initSlot = none ∧
              CallerSt.doneErr ∈ s.callers ∧
              ∀ c ∈ s.callers, c = .polling ∨ c = .doneErr) ∨
           (∃ od, cacheGet cfg.now cfg.initSlot = some od ∧
              s.callers.count CallerSt.doneErr = 1 ∧
              ∀ c ∈ s.callers,
                c = .polling ∨ c = .doneErr ∨ c = .doneOk od))))))

theorem inv_init (cfg : CacheCfg) : Inv cfg (initSys cfg) :=
  ⟨by simp [initSys], Or.inl ⟨rfl, rfl, rfl,
    fun _ hc => List.eq_of_mem_replicate hc⟩⟩

theorem getElem?_set_self {α : Type} {l : List α} {i : Nat} {x : α}
    (h : i < l.length) : (l.set i x)[i]? = some x := by
  rw [List.getElem?_set]
  simp [h]

theorem getElem?_set_ne {α : Type} {l : List α} {i j : Nat} {x : α}
    (h : i ≠ j) : (l.set i x)[j]? = l[j]? := by
  rw [List.getElem?_set, if_neg h]

theorem inv_step {cfg : CacheCfg} {s s' : CacheSys}
    (hstep : CacheStep cfg s s') (hinv : Inv cfg s) : Inv cfg s' := by
  obtain ⟨hlen, hph⟩ := hinv
  cases hstep with
  | start i hc hr =>
    have hlt : i < s.callers.length := getElem?_some_lt hc
    refine ⟨by simpa [List.length_set] using hlen, ?_⟩
    rcases hph with ⟨p1, p2, p3, p4⟩ | ⟨p1, p2, p3, p4⟩ | ⟨p1, p2, pcase⟩
    · refine Or.inr (Or.inl ⟨rfl, ?_, p3, i, ?_, ?_⟩)
      · show s.fetchCount + 1 = 1
        omega
      · exact getElem?_set_self hlt
      · intro j c hji hj
        rw [getElem?_set_ne (fun h => hji h.symm)] at hj
        exact Or.inl (p4 c (mem_of_getElem?_some hj))
    · rw [hr] at p1
      exact Bool.noConfusion p1
    · exfalso
      have hmem := mem_of_getElem?_some hc
      rcases pcase with ⟨d, _, _, p4⟩ | ⟨_, _, ⟨_, _, p4⟩ | ⟨od, _, _, p4⟩⟩
      · rcases p4 _ hmem with h | h <;> exact CallerSt.noConfusion h
      · rcases p4 _ hmem with h | h <;> exact CallerSt.noConfusion h
      · rcases p4 _ hmem with h | h | h <;> exact CallerSt.noConfusion h
  | startWait i hc hr =>
    have hlt : i < s.callers.length := getElem?_some_lt hc
    refine ⟨by simpa [List.length_set] using hlen, ?_⟩
    rcases hph with ⟨p1, p2, p3, p4⟩ | ⟨p1, p2, p3, i0, hi0, hw⟩ | ⟨p1, p2, pcase⟩
    · rw [hr] at p1
      exact Bool.noConfusion p1
    · have hne : i ≠ i0 := by
        intro h
        rw [h, hi0] at hc
        exact CallerSt.noConfusion (Option.some.inj hc)
      refine Or.inr (Or.inl ⟨p1, p2, p3, i0, ?_, ?_⟩)
      · rw [getElem?_set_ne hne]
        exact hi0
      · intro j c hji hj
        by_cases hij : i = j
        · subst hij
          rw [getElem?_set_self hlt] at hj
          exact Or.inr (Option.some.inj hj).symm
        · rw [getElem?_set_ne hij] at hj
          exact hw j c hji hj
    · rw [hr] at p1
      exact Bool.noConfusion p1
  | fetchOk i d hc hp hnr =>
    have hlt : i < s.callers.length := getElem?_some_lt hc
    refine ⟨by simpa [List.length_set] using hlen, ?_⟩
    rcases hph with ⟨p1, p2, p3, p4⟩ | ⟨p1, p2, p3, i0, hi0, hw⟩ | ⟨p1, p2, pcase⟩
    · exact absurd (p4 _ (mem_of_getElem?_some hc))
        (fun h => CallerSt.noConfusion h)
    · have hii0 : i = i0 := by
        by_contra hne
        rcases hw i _ hne hc with h | h <;> exact CallerSt.noConfusion h
      refine Or.inr (Or.inr ⟨rfl, p2, Or.inl ⟨d, hp, rfl, ?_⟩⟩)
      intro c hcmem
      obtain ⟨j, hj⟩ := List.mem_iff_getElem?.mp hcmem
      by_cases hij : i = j
      · subst hij
        rw [getElem?_set_self hlt] at hj
        exact Or.inr (Option.some.inj hj).symm
      · rw [getElem?_set_ne hij] at hj
        have hji0 : j ≠ i0 := fun h => hij (by rw [hii0, h])
        rcases hw j c hji0 hj with h | h
        · exact absurd (h ▸ mem_of_getElem?_some hj) hnr
        · exact Or.inl h
    · exfalso
      have hmem := mem_of_getElem?_some hc
      rcases pcase with ⟨d2, _, _, p4⟩ | ⟨_, _, ⟨_, _, p4⟩ | ⟨od, _, _, p4⟩⟩
      · rcases p4 _ hmem with h | h <;> exact CallerSt.noConfusion h
      · rcases p4 _ hmem with h | h <;> exact CallerSt.noConfusion h
      · rcases p4 _ hmem with h | h | h <;> exact CallerSt.noConfusion h
  | fetchFail i hc hp hnr =>
    have hlt : i < s.callers.length := getElem?_some_lt hc
    refine ⟨by simpa [List.length_set] using hlen, ?_⟩
    rcases hph with ⟨p1, p2, p3, p4⟩ | ⟨p1, p2, p3, i0, hi0, hw⟩ | ⟨p1, p2, pcase⟩
    · exact absurd (p4 _ (mem_of_getElem?_some hc))
        (fun h => CallerSt.noConfusion h)
    · have hii0 : i = i0 := by
        by_contra hne
        rcases hw i _ hne hc with h | h <;> exact CallerSt.noConfusion h
      refine Or.inr (Or.inr ⟨rfl, p2, Or.inr ⟨hp, p3, ?_⟩⟩)
      cases hcg : cacheGet cfg.now cfg.initSlot with
      | none =>
        refine Or.inl ⟨rfl, ?_, ?_⟩
        · exact mem_of_getElem?_some (getElem?_set_self hlt)
        · intro c hcmem
          obtain ⟨j, hj⟩ := List.mem_iff_getElem?.mp hcmem
          by_cases hij : i = j
          · subst hij
            rw [getElem?_set_self hlt] at hj
            exact Or.inr (Option.some.inj hj).symm
          · rw [getElem?_set_ne hij] at hj
            have hji0 : j ≠ i0 := fun h => hij (by rw [hii0, h])
            rcases hw j c hji0 hj with h | h
            · exact absurd (h ▸ mem_of_getElem?_some hj) hnr
            · exact Or.inl h
      | some od =>
        refine Or.inr ⟨od, rfl, ?_, ?_⟩
        · refine count_set_eq_one s.callers i CallerSt.doneErr hlt ?_
          intro j c hji hj
          have hji0 : j ≠ i0 := fun h2 => hji (by rw [hii0, h2])
          rcases hw j c hji0 hj with h | h <;>
            · subst h
              exact fun hx => CallerSt.noConfusion hx
        · intro c hcmem
          obtain ⟨j, hj⟩ := List.mem_iff_getElem?.mp hcmem
          by_cases hij : i = j
          · subst hij
            rw [getElem?_set_self hlt] at hj
            exact Or.inr (Or.inl (Option.some.inj hj).symm)
          · rw [getElem?_set_ne hij] at hj
            have hji0 : j ≠ i0 := fun h2 => hij (by rw [hii0, h2])
            rcases hw j c hji0 hj with h | h
            · exact absurd (h ▸ mem_of_getElem?_some hj) hnr
            · exact Or.inl h
    · exfalso
      have hmem := mem_of_getElem?_some hc
      rcases pcase with ⟨d2, _, _, p4⟩ | ⟨_, _, ⟨_, _, p4⟩ | ⟨od, _, _, p4⟩⟩
      · rcases p4 _ hmem with h | h <;> exact CallerSt.noConfusion h
      · rcases p4 _ hmem with h | h <;> exact CallerSt.noConfusion h
      · rcases p4 _ hmem with h | h | h <;> exact CallerSt.noConfusion h
  | wake i hc hr =>
    have hlt : i < s.callers.length := getElem?_some_lt hc
    refine ⟨by simpa [List.length_set] using hlen, ?_⟩
    rcases hph with ⟨p1, p2, p3, p4⟩ | ⟨p1, p2, p3, i0, hi0, hw⟩ | ⟨p1, p2, pcase⟩
    · exact absurd (p4 _ (mem_of_getElem?_some hc))
        (fun h => CallerSt.noConfusion h)
    · rw [hr] at p1
      exact Bool.noConfusion p1
    · rcases pcase with ⟨d, hpd, hslot, p4⟩ | ⟨hpe, hslot, ⟨hcg, herr, p4⟩ | ⟨od, hcg, hcount, p4⟩⟩
      · have hcg : cacheGet cfg.now s.slot = some d := by
          rw [hslot]
          show (if cfg.now + cfg.ttl < cfg.now then none else some d) = some d
          rw [if_neg (by omega)]
        have hcv :
            (match cacheGet cfg.now s.slot with
             | some d => CallerSt.doneOk d
             | none => CallerSt.doneErr) = CallerSt.doneOk d := by
          rw [hcg]
        rw [hcv]
        refine Or.inr (Or.inr ⟨p1, p2, Or.inl ⟨d, hpd, hslot, ?_⟩⟩)
        intro c hcmem
        rcases List.mem_or_eq_of_mem_set hcmem with h | h
        · exact p4 c h
        · exact Or.inr h
      · have hcv :
            (match cacheGet cfg.now s.slot with
             | some d => CallerSt.doneOk d
             | none => CallerSt.doneErr) = CallerSt.doneErr := by
          rw [hslot, hcg]
        rw [hcv]
        refine Or.inr (Or.inr ⟨p1, p2, Or.inr ⟨hpe, hslot, Or.inl ⟨hcg, ?_, ?_⟩⟩⟩)
        · exact mem_of_getElem?_some (getElem?_set_self hlt)
        · intro c hcmem
          rcases List.mem_or_eq_of_mem_set hcmem with h | h
          · exact p4 c h
          · exact Or.inr h
      · have hcv :
            (match cacheGet cfg.now s.slot with
             | some d => CallerSt.doneOk d
             | none => CallerSt.doneErr) = CallerSt.doneOk od := by
          rw [hslot, hcg]
        rw [hcv]
        refine Or.inr (Or.inr ⟨p1, p2, Or.inr ⟨hpe, hslot, Or.inr ⟨od, hcg, ?_, ?_⟩⟩⟩)
        · rw [count_set_preserved s.callers i CallerSt.doneErr CallerSt.polling
            (CallerSt.doneOk od) hc (fun hx => CallerSt.noConfusion hx)
            (fun hx => CallerSt.noConfusion hx)]
          exact hcount
        · intro c hcmem
          rcases List.mem_or_eq_of_mem_set hcmem with h | h
          · exact p4 c h
          · exact Or.inr (Or.inr h)

theorem inv_reach {cfg : CacheCfg} {s : CacheSys} (h : Reach cfg s) :
    Inv cfg s := by
  induction h with
  | refl => exact inv_init cfg
  | tail _ hs ih => exact inv_step hs ih

/-- C1 (amended): a group of overlapping `refresh()` calls starting from
an idle cache invokes the producer exactly once; if that invocation
succeeds, every caller resolves with the produced description.  If it
fails, then: some caller (necessarily the invoking one) rejects; when the
slot is empty or expired, every caller rejects; and when a still-valid
entry is cached, exactly one caller rejects — so every waiting caller
resolves with the previous cached description rather than observing the
failure. -/
theorem claim_C1_refresh_coalescing (cfg : CacheCfg) (hn : 1 ≤ cfg.n)
    (s : CacheSys) (hreach : Reach cfg s) (hdone : allDone s) :
    s.fetchCount = 1
    ∧ (∀ d, cfg.producer = .ok d → ∀ c ∈ s.callers, c = .doneOk d)
    ∧ (cfg.producer = .error () →
        CallerSt.doneErr ∈ s.callers
        ∧ (cacheGet cfg.now cfg.initSlot = none → ∀ c ∈ s.callers, c = .doneErr)
        ∧ ∀ od, cacheGet cfg.now cfg.initSlot = some od →
            s.callers.count CallerSt.doneErr = 1
            ∧ ∀ c ∈ s.callers, c = .doneErr ∨ c = .doneOk od) := by
  obtain ⟨hlen, hph⟩ := inv_reach hreach
  rcases hph with ⟨p1, p2, p3, p4⟩ | ⟨p1, p2, p3, i0, hi0, hw⟩ | ⟨p1, p2, pcase⟩
  · exfalso
    have hne : s.callers ≠ [] := by
      intro h
      rw [h] at hlen
      simp at hlen
      omega
    obtain ⟨c, hcmem⟩ := List.exists_mem_of_ne_nil s.callers hne
    have hd := hdone c hcmem
    rw [p4 c hcmem] at hd
    exact Bool.noConfusion hd
  · exfalso
    have hd := hdone _ (mem_of_getElem?_some hi0)
    exact Bool.noConfusion hd
  · refine ⟨p2, ?_, ?_⟩
    · intro d hpd c hcmem
      rcases pcase with ⟨d2, hpd2, _, p4⟩ | ⟨hpe, _, _⟩
      · rw [hpd] at hpd2
        cases hpd2
        rcases p4 c hcmem with h | h
        · exfalso
          have hd := hdone c hcmem
          rw [h] at hd
          exact Bool.noConfusion hd
        · exact h
      · rw [hpd] at hpe
        exact Except.noConfusion hpe
    · intro hpe
      rcases pcase with ⟨d2, hpd2, _⟩ | ⟨_, _, ⟨hcg, herr, p4⟩ | ⟨od, hcg, hcount, p4⟩⟩
      · rw [hpe] at hpd2
        exact Except.noConfusion hpd2
      · refine ⟨herr, ?_, ?_⟩
        · intro _ c hcmem
          rcases p4 c hcmem with h | h
          · exfalso
            have hd := hdone c hcmem
            rw [h] at hd
            exact Bool.noConfusion hd
          · exact h
        · intro od2 hod2
          rw [hcg] at hod2
          exact Option.noConfusion hod2
      · refine ⟨?_, ?_, ?_⟩
        · refine List.count_pos_iff.mp ?_
          rw [hcount]
          omega
        · intro hnone
          rw [hcg] at hnone
          exact Option.noConfusion hnone
        · intro od2 hod2
          rw [hcg] at hod2
          obtain rfl : od = od2 := Option.some.inj hod2
          refine ⟨hcount, ?_⟩
          intro c hcmem
          rcases p4 c hcmem with h | h | h
          · exfalso
            have hd := hdone c hcmem
            rw [h] at hd
            exact Bool.noConfusion hd
          · exact Or.inl h
          · exact Or.inr h

/-- Episode used for the C1 witness: one caller, succeeding producer. -/
def wCfg : CacheCfg := ⟨10, 0, none, .ok 5, 1⟩

/-- Final state of the witness episode. -/
def wS2 : CacheSys := ⟨some ⟨5, 0, 10⟩, false, [.doneOk 5], 1⟩

theorem wReach : Reach wCfg wS2 := by
  have h1 : CacheStep wCfg ⟨none, false, [.ready], 0⟩ ⟨none, true, [.fetching], 1⟩ :=
    CacheStep.start ⟨none, false, [.ready], 0⟩ 0 rfl rfl
  have h2 : CacheStep wCfg ⟨none, true, [.fetching], 1⟩ wS2 :=
    CacheStep.fetchOk ⟨none, true, [.fetching], 1⟩ 0 5 rfl rfl (by decide)
  exact Relation.ReflTransGen.head h1
    (Relation.ReflTransGen.head h2 Relation.ReflTransGen.refl)

/-- C1 witness: the single-caller success episode fetches exactly once
and resolves with the produced description. -/
theorem claim_C1_refresh_coalescing_witness :
    wS2.fetchCount = 1 ∧ ∀ c ∈ wS2.callers, c = CallerSt.doneOk 5 := by
  have h := claim_C1_refresh_coalescing wCfg (by decide) wS2 wReach (by unfold allDone; decide)
  exact ⟨h.1, h.2.1 5 rfl⟩

/-- Episode refuting the failure clause of C1 as stated: two overlapping
callers, a still-valid cached entry holding description 7, and a failing
producer. -/
def cexCfg : CacheCfg := ⟨5, 0, some ⟨7, 0, 5⟩, .error (), 2⟩

/-- Final state of the refuting episode: the invoking caller rejected,
but the waiting caller resolved with the old description 7. -/
def cexS4 : CacheSys := ⟨some ⟨7, 0, 5⟩, false, [.doneErr, .doneOk 7], 1⟩

theorem cexReach : Reach cexCfg cexS4 := by
  have h1 : CacheStep cexCfg ⟨some ⟨7, 0, 5⟩, false, [.ready, .ready], 0⟩
      ⟨some ⟨7, 0, 5⟩, true, [.fetching, .ready], 1⟩ :=
    CacheStep.start _ 0 rfl rfl
  have h2 : CacheStep cexCfg ⟨some ⟨7, 0, 5⟩, true, [.fetching, .ready], 1⟩
      ⟨some ⟨7, 0, 5⟩, true, [.fetching, .polling], 1⟩ :=
    CacheStep.startWait _ 1 rfl rfl
  have h3 : CacheStep cexCfg ⟨some ⟨7, 0, 5⟩, true, [.fetching, .polling], 1⟩
      ⟨some ⟨7, 0, 5⟩, false, [.doneErr, .polling], 1⟩ :=
    CacheStep.fetchFail _ 0 rfl rfl (by decide)
  have h4 : CacheStep cexCfg ⟨some ⟨7, 0, 5⟩, false, [.doneErr, .polling], 1⟩
      cexS4 :=
    CacheStep.wake _ 1 rfl rfl
  exact Relation.ReflTransGen.head h1 (Relation.ReflTransGen.head h2
    (Relation.ReflTransGen.head h3
      (Relation.ReflTransGen.head h4 Relation.ReflTransGen.refl)))

/-- C1 counterexample: in an episode whose single producer invocation
fails while a still-valid entry (description 7) is cached, the waiting
caller completes with the old description 7 instead of observing the
failure, refuting the clause that every waiting caller observes the
failure. -/
theorem claim_C1_counterexample :
    cexCfg.producer = .error ()
    ∧ Reach cexCfg cexS4
    ∧ allDone cexS4
    ∧ cexS4.callers[1]? = some (.doneOk 7)
    ∧ cexS4.callers[1]? ≠ some .doneErr :=
  ⟨rfl, cexReach, by unfold allDone; decide, rfl, by decide⟩

/-- C4: when the producer of a refresh fails, every reachable state of the
episode keeps the cache slot exactly as it was initially (no entry is
replaced, created, or cleared), so reads return exactly what they returned
before the failed refresh.  The auto-refresh timer calls `refresh()` with
the rejection consumed by `.catch`, so a timer-triggered episode is one
more caller of this same system and its failure likewise leaves the last
good entry intact. -/
theorem claim_C4_failed_refresh_preserves_slot (cfg : CacheCfg)
    (hp : cfg.producer = .error ()) (s : CacheSys) (hreach : Reach cfg s) :
    s.slot = cfg.initSlot
    ∧ cacheGet cfg.now s.slot = cacheGet cfg.now cfg.initSlot := by
  suffices h : s.slot = cfg.initSlot by exact ⟨h, by rw [h]⟩
  induction hreach with
  | refl => rfl
  | tail _ hs ih =>
    cases hs with
    | start i hc hrr => exact ih
    | startWait i hc hrr => exact ih
    | fetchOk i d hc hpd hnr =>
      rw [hp] at hpd
      exact Except.noConfusion hpd
    | fetchFail i hc hpd hnr => exact ih
    | wake i hc hrr => exact ih

/-- C4 witness: in the concrete failing episode the slot still holds the
initial entry at the end. -/
theorem claim_C4_failed_refresh_preserves_slot_witness :
    cexS4.slot = cexCfg.initSlot :=
  (claim_C4_failed_refresh_preserves_slot cexCfg rfl cexS4 cexReach).1

/-! ## Normalization component (`OpenAPIParser`, `src/parser/parser.ts`)

The parser instance holds `this.spec` (the raw document) and
`this.isV3 = 'openapi' in this.spec`; both are passed explicitly.  Inputs
that would make the TypeScript throw inside an endpoint (and be skipped by
the per-endpoint catch) because a typed field holds a value of the wrong
runtime shape — a non-array `parameters`, a non-array composition list, a
non-string `$ref` — are normalized to the empty/absent case here; no claim
depends on those ill-typed shapes. -/

/-- Whether the document is an OpenAPI 3.x document
(`'openapi' in this.spec`). -/
def isV3 (spec : Json) : Bool :=
  spec.hasKey "openapi"

/-- Truthiness of a field (`if (obj.field)`), as a Bool. -/
def truthyOf (j : Json) (k : String) : Bool :=
  (j.lookupTruthy k).isSome

/-- Splitting a character list at a separator (JS `String.split` with a
single-character separator). -/
def splitOnChar (sep : Char) : List Char → List (List Char)
  | [] => [[]]
  | c :: t =>
    let r := splitOnChar sep t
    if c = sep then [] :: r
    else
      match r with
      | [] => [[c]]
      | h :: t2 => (c :: h) :: t2

/-- Decimal digits to a number, for the JS `part in array` index check. -/
def digitsToNat? (cs : List Char) : Option Nat :=
  if cs ≠ [] ∧ cs.all Char.isDigit then
    some (cs.foldl (fun a c => a * 10 + (c.toNat - 48)) 0)
  else none

/-- One step of the `resolveRef` path walk
(`current && typeof current === 'object' && part in current`). -/
def jsonIndex (j : Json) (part : String) : Option Json :=
  match j with
  | .obj fs => (fs.find? (fun f => f.1 == part)).map (fun f => f.2)
  | .arr xs =>
    match digitsToNat? part.data with
    | some n => xs[n]?
    | none => none
  | _ => none

/-- The path walk of `resolveRef`. -/
def refWalk : Json → List String → Option Json
  | current, [] => some current
  | current, part :: rest =>
    match jsonIndex current part with
    | some nxt => refWalk nxt rest
    | none => none

/-- `OpenAPIParser.resolveRef`: resolve a local `#/...` pointer by walking
the raw document; any other pointer resolves to nothing. -/
def resolveRef (spec : Json) (ref : String) : Option Json :=
  if jsStartsWith ref "#/" then
    refWalk spec ((splitOnChar '/' (ref.data.drop 2)).map (fun cs => (⟨cs⟩ : String)))
  else none

/-- The `$ref` guard `'$ref' in schema && schema.$ref` (the value is a
string by the declared `ReferenceObject` type). -/
def refOf (schema : Json) : Option String :=
  match schema.lookup "$ref" with
  | some (.str r) => if r ≠ "" then some r else none
  | _ => none

/-- `OpenAPIParser.getSchemaType`: the declared type (first element when
it is a list), else object/array/string fallbacks. -/
def getSchemaType (schema : Json) : Option Json :=
  match schema.lookupTruthy "type" with
  | some (.arr xs) => xs.head?
  | some v => some v
  | none =>
    if truthyOf schema "properties" then some (.str "object")
    else if schema.hasKey "items" then some (.str "array")
    else if truthyOf schema "enum" then some (.str "string")
    else some (.str "object")

/-- Strict comparison of a raw field against a string
(`schema.type === 'array'`). -/
def strFieldIs (j : Json) (k v : String) : Bool :=
  match j.lookup k with
  | some (.str s) => s = v
  | _ => false

/-- The recursive body of `OpenAPIParser.normalizeSchema`, with the
remaining recursion budget as explicit fuel (`fuel = 11 - depth`, so that
the guard `depth > 10` is exactly `fuel = 0`, and the recursive calls at
`depth + 1` run at `fuel - 1`).  Written with `Nat.rec` so that the
definition is structurally recursive and kernel-computable. -/
def normSchemaGo (spec : Json) (fuel : Nat) : Option Json → NormalizedSchema :=
  Nat.rec (motive := fun _ => Option Json → NormalizedSchema)
    (fun _ => stubSchema)
    (fun _ ih schemaOpt =>
      match schemaOpt with
      | none => stubSchema
      | some schema =>
        match refOf schema with
        | some refPath =>
          match resolveRef spec refPath with
          | some resolved =>
            .node { (ih (some resolved)).fields with ref := some refPath }
          | none =>
            .node { emptyFields with type := some (.str "object"), ref := some refPath }
        | none =>
          let n0 : SchemaFields NormalizedSchema :=
            { emptyFields with type := getSchemaType schema }
          let n1 := match schema.lookupTruthy "format" with
            | some v => { n0 with format := some v }
            | none => n0
          let n2 := match schema.lookupTruthy "description" with
            | some v => { n1 with description := some v }
            | none => n1
          let n3 := match schema.lookupTruthy "enum" with
            | some v => { n2 with enum := some v }
            | none => n2
          let n4 := match schema.lookup "default" with
            | some v => { n3 with defaultVal := some v }
            | none => n3
          let n5 := match schema.lookup "example" with
            | some v => { n4 with exampleVal := some v }
            | none => n4
          let n6 := match schema.lookup "minimum" with
            | some v => { n5 with minimum := some v }
            | none => n5
          let n7 := match schema.lookup "maximum" with
            | some v => { n6 with maximum := some v }
            | none => n6
          let n8 := match schema.lookup "minLength" with
            | some v => { n7 with minLength := some v }
            | none => n7
          let n9 := match schema.lookup "maxLength" with
            | some v => { n8 with maxLength := some v }
            | none => n8
          let n10 := match schema.lookupTruthy "pattern" with
            | some v => { n9 with pattern := some v }
            | none => n9
          let n11 :=
            if isV3 spec && truthyOf schema "nullable" then
              { n10 with nullable := some true }
            else n10
          let n12 :=
            match (if strFieldIs schema "type" "array"
                   then schema.lookupTruthy "items" else none) with
            | some itemsV => { n11 with items := some (ih (some itemsV)) }
            | none => n11
          let n13 :=
            if strFieldIs schema "type" "object" || truthyOf schema "properties" then
              let nr := match schema.lookupTruthy "required" with
                | some v => { n12 with required := some v }
                | none => n12
              match schema.lookupTruthy "properties" with
              | some (.obj props) =>
                { nr with properties := some (props.map (fun pr => (pr.1, ih (some pr.2)))) }
              | _ => nr
            else n12
          let n14 := match schema.lookupTruthy "oneOf" with
            | some (.arr xs) => { n13 with oneOf := some (xs.map (fun x => ih (some x))) }
            | _ => n13
          let n15 := match schema.lookupTruthy "anyOf" with
            | some (.arr xs) => { n14 with anyOf := some (xs.map (fun x => ih (some x))) }
            | _ => n14
          let n16 := match schema.lookupTruthy "allOf" with
            | some (.arr xs) => { n15 with allOf := some (xs.map (fun x => ih (some x))) }
            | _ => n15
          .node n16)
    fuel

/-- `OpenAPIParser.normalizeSchema(schema, depth)`: stub at `depth > 10`
or for an absent schema, `$ref` resolution with the reference path
retained, raw fields copied under the JS guards of the source, and
array/object/composition children recursing at `depth + 1`. -/
def normalizeSchema (spec : Json) (schemaOpt : Option Json) (depth : Nat) : NormalizedSchema :=
  normSchemaGo spec (11 - depth) schemaOpt

/-- A document whose schema `#/definitions/A` is a `$ref` to itself. -/
def cyc5Schema : Json :=
  .obj [("$ref", .str "#/definitions/A")]

/-- The enclosing cyclic raw document. -/
def cyc5Spec : Json :=
  .obj [("definitions", .obj [("A", cyc5Schema)])]

/-- The collapsed result of normalizing the self-referencing schema. -/
def cyc5Result : NormalizedSchema :=
  .node { emptyFields with type := some (.str "object"), ref := some "#/definitions/A" }

/-- C5: `normalizeSchema` is depth-capped — at any depth beyond 10 it
returns the opaque object stub for every raw document and schema — and it
is a total function (defined by structural recursion on the remaining
budget), so normalization terminates on every raw schema graph; in
particular a schema whose `$ref` resolves to itself normalizes without
infinite recursion, collapsing to the opaque object stub carrying the
reference path. -/
theorem claim_C5_depth_cap :
    (∀ (spec : Json) (schemaOpt : Option Json) (d : Nat), 10 < d →
        normalizeSchema spec schemaOpt d = stubSchema)
    ∧ normalizeSchema cyc5Spec (some cyc5Schema) 0 = cyc5Result
    ∧ normalizeSchema cyc5Spec (some cyc5Schema) 10 = cyc5Result := by
  refine ⟨?_, ?_, ?_⟩
  · intro spec schemaOpt d hd
    unfold normalizeSchema
    have h0 : 11 - d = 0 := by omega
    rw [h0]
    rfl
  · rfl
  · rfl

/-- C5 witness: the cap fires at depth 11 on the empty document. -/
theorem claim_C5_depth_cap_witness :
    normalizeSchema (Json.obj []) none 11 = stubSchema :=
  claim_C5_depth_cap.1 (Json.obj []) none 11 (by omega)

/-- First element of an array-valued field (`field?.[0]`). -/
def firstOfArrField (j : Json) (k : String) : Option Json :=
  match j.lookup k with
  | some (.arr xs) => xs.head?
  | _ => none

/-- `OpenAPIParser.getBaseUrl`: for 3.x the first declared server URL
(`servers?.[0]?.url`); for 2.0, when `host` is truthy,
`scheme://host basePath` with `scheme = schemes?.[0] || 'https'` and
`basePath = basePath || ''`; otherwise nothing. -/
def getBaseUrl (spec : Json) : Option String :=
  if isV3 spec then
    match firstOfArrField spec "servers" with
    | some s0 => s0.strField "url"
    | none => none
  else
    match spec.lookupTruthy "host" with
    | some hostV =>
      let scheme :=
        match firstOfArrField spec "schemes" with
        | some s0 => if s0.truthy then jsTemplateStr (some s0) else "https"
        | none => "https"
      let basePath :=
        match spec.lookup "basePath" with
        | some bp => if bp.truthy then jsTemplateStr (some bp) else ""
        | none => ""
      some (scheme ++ "://" ++ jsTemplateStr (some hostV) ++ basePath)
    | none => none

/-- Claim-side base URL, following the claim words literally: for 3.x the
first server URL verbatim; for a 2.0 document declaring a host,
`scheme://host basePath` where the scheme IS the first entry of `schemes`
(https only when `schemes` is absent or empty) and `basePath` defaults to
the empty string. -/
def claimBaseUrlOriginal (spec : Json) : Option String :=
  if isV3 spec then
    match firstOfArrField spec "servers" with
    | some s0 => s0.strField "url"
    | none => none
  else
    match spec.lookupTruthy "host" with
    | some hostV =>
      let scheme :=
        match firstOfArrField spec "schemes" with
        | some s0 => jsTemplateStr (some s0)
        | none => "https"
      let basePath :=
        match spec.lookup "basePath" with
        | some bp => if bp.truthy then jsTemplateStr (some bp) else ""
        | none => ""
      some (scheme ++ "://" ++ jsTemplateStr (some hostV) ++ basePath)
    | none => none

/-- Claim-side base URL after the amendment: the scheme falls back to
https also when the first entry of `schemes` is falsy (for instance the
empty string), not only when `schemes` is absent or empty. -/
def claimBaseUrlAmended (spec : Json) : Option String :=
  if isV3 spec then
    match firstOfArrField spec "servers" with
    | some s0 => s0.strField "url"
    | none => none
  else
    match spec.lookupTruthy "host" with
    | some hostV =>
      let scheme :=
        match firstOfArrField spec "schemes" with
        | some s0 => if s0.truthy then jsTemplateStr (some s0) else "https"
        | none => "https"
      let basePath :=
        match spec.lookup "basePath" with
        | some bp => if bp.truthy then jsTemplateStr (some bp) else ""
        | none => ""
      some (scheme ++ "://" ++ jsTemplateStr (some hostV) ++ basePath)
    | none => none

/-- A Swagger 2.0 document whose `schemes` list starts with the empty
string. -/
def emptySchemeDoc : Json :=
  .obj [("swagger", .str "2.0"), ("host", .str "api.x.com"),
        ("schemes", .arr [.str ""])]

/-- The Swagger 2.0 scenario document of the claim. -/
def swaggerScenarioDoc : Json :=
  .obj [("swagger", .str "2.0"), ("host", .str "api.x.com"),
        ("basePath", .str "/v1"), ("schemes", .arr [.str "https"])]

/-- C6 counterexample: on a Swagger 2.0 document declaring
`schemes: [""]`, the code falls back to https (`schemes?.[0] || 'https'`)
while the claim prescribes the first entry verbatim, so the two
disagree. -/
theorem claim_C6_counterexample :
    getBaseUrl emptySchemeDoc = some "https://api.x.com"
    ∧ claimBaseUrlOriginal emptySchemeDoc = some "://api.x.com"
    ∧ getBaseUrl emptySchemeDoc ≠ claimBaseUrlOriginal emptySchemeDoc := by
  refine ⟨rfl, rfl, ?_⟩
  decide

/-- C6 (amended): `getBaseUrl` returns the first declared server URL
verbatim for 3.x documents (nothing when no server is declared), and for
2.0 documents declaring a host synthesizes `scheme://host basePath`,
where the scheme is the first entry of `schemes` unless that entry is
falsy or `schemes` is absent or empty (then https), and `basePath`
defaults to the empty string; the claim scenario yields
`https://api.x.com/v1`. -/
theorem claim_C6_base_url (spec : Json) :
    getBaseUrl spec = claimBaseUrlAmended spec
    ∧ getBaseUrl swaggerScenarioDoc = some "https://api.x.com/v1" := by
  exact ⟨rfl, rfl⟩

/-! ## Parameter merge and endpoint assembly -/

/-- The dedup key `` `${param.in}:${param.name}` ``. -/
def paramKey (p : Json) : String :=
  jsTemplateStr (p.lookup "in") ++ ":" ++ jsTemplateStr (p.lookup "name")

/-- The `'$ref' in param` guard that drops reference-only entries. -/
def isRefParam (p : Json) : Bool :=
  p.hasKey "$ref"

/-- JS `Map.set`: replace in place when the key exists, append
otherwise. -/
def jsMapSet : List (String × Json) → String → Json → List (String × Json)
  | [], k, v => [(k, v)]
  | e :: t, k, v => if e.1 = k then (k, v) :: t else e :: jsMapSet t k v

/-- The parameter-dedup loop of `parseOperation`: skip `$ref` entries,
set the rest into the map keyed by location and name. -/
def paramFold (m : List (String × Json)) (l : List Json) : List (String × Json) :=
  l.foldl (fun m p => if isRefParam p then m else jsMapSet m (paramKey p) p) m

/-- The `parameters` array of a path item or operation
(`x.parameters || []`). -/
def paramsOf (j : Json) : List Json :=
  match j.lookup "parameters" with
  | some (.arr xs) => xs
  | _ => []

/-- Merged parameters: path-item-level first, operation-level second,
deduplicated with later entries winning, in first-insertion order
(`Array.from(paramMap.values())`). -/
def mergeParams (pathPs opPs : List Json) : List Json :=
  (paramFold [] (pathPs ++ opPs)).map (fun e => e.2)

/-- Association lookup by key. -/
def lookupKey (k : String) (m : List (String × Json)) : Option Json :=
  (m.find? (fun e => e.1 == k)).map (fun e => e.2)

theorem lookupKey_jsMapSet_self (m : List (String × Json)) (k : String) (v : Json) :
    lookupKey k (jsMapSet m k v) = some v := by
  induction m with
  | nil => simp [jsMapSet, lookupKey]
  | cons e t ih =>
    by_cases heq : e.1 = k
    · simp [jsMapSet, heq, lookupKey]
    · simp only [jsMapSet, if_neg heq]
      simpa [lookupKey, List.find?_cons, heq] using ih

theorem lookupKey_jsMapSet_ne (m : List (String × Json)) (k k2 : String) (v : Json)
    (h : k ≠ k2) : lookupKey k2 (jsMapSet m k v) = lookupKey k2 m := by
  induction m with
  | nil => simp [jsMapSet, lookupKey, h]
  | cons e t ih =>
    by_cases heq : e.1 = k
    · simp [jsMapSet, heq, lookupKey, List.find?_cons, h]
    · simp only [jsMapSet, if_neg heq]
      by_cases he2 : e.1 = k2
      · simp [lookupKey, List.find?_cons, he2]
      · simpa [lookupKey, List.find?_cons, he2] using ih

theorem mem_jsMapSet (m : List (String × Json)) (k : String) (v : Json)
    (e : String × Json) (he : e ∈ jsMapSet m k v) : e = (k, v) ∨ e ∈ m := by
  induction m with
  | nil => simpa [jsMapSet] using he
  | cons e0 t ih =>
    by_cases heq : e0.1 = k
    · rw [jsMapSet, if_pos heq] at he
      rcases List.mem_cons.mp he with h | h
      · exact Or.inl h
      · exact Or.inr (List.mem_cons_of_mem e0 h)
    · rw [jsMapSet, if_neg heq] at he
      rcases List.mem_cons.mp he with h | h
      · exact Or.inr (h ▸ List.mem_cons_self e0 t)
      · rcases ih h with h2 | h2
        · exact Or.inl h2
        · exact Or.inr (List.mem_cons_of_mem e0 h2)

/-- The non-reference entry with a given key that would win the dedup:
the LAST one in the list. -/
def findLastKeyParam (l : List Json) (k : String) : Option Json :=
  l.reverse.find? (fun p => !isRefParam p && paramKey p == k)

theorem lookupKey_paramFold (l : List Json) (m : List (String × Json)) (k : String) :
    lookupKey k (paramFold m l)
      = match findLastKeyParam l k with
        | some p => some p
        | none => lookupKey k m := by
  induction l generalizing m with
  | nil => simp [paramFold, findLastKeyParam]
  | cons p t ih =>
    have hstep : paramFold m (p :: t)
        = paramFold (if isRefParam p then m else jsMapSet m (paramKey p) p) t := by
      simp [paramFold]
    rw [hstep, ih]
    have hrev : (p :: t).reverse = t.reverse ++ [p] := by simp
    unfold findLastKeyParam
    rw [hrev, List.find?_append]
    cases hf : t.reverse.find? (fun q => !isRefParam q && paramKey q == k) with
    | some q => simp [findLastKeyParam, hf]
    | none =>
      simp only [findLastKeyParam, hf, Option.none_orElse]
      by_cases hr : isRefParam p
      · simp [List.find?_cons, hr]
      · by_cases hk : paramKey p = k
        · subst hk
          simp [List.find?_cons, hr, lookupKey_jsMapSet_self]
        · simp [List.find?_cons, hr, hk, lookupKey_jsMapSet_ne m (paramKey p) k p hk]

theorem paramFold_mem (l : List Json) (m : List (String × Json))
    (e : String × Json) (he : e ∈ paramFold m l) :
    e ∈ m ∨ (e.2 ∈ l ∧ isRefParam e.2 = false ∧ e.1 = paramKey e.2) := by
  induction l generalizing m with
  | nil => exact Or.inl (by simpa [paramFold] using he)
  | cons p t ih =>
    have hstep : paramFold m (p :: t)
        = paramFold (if isRefParam p then m else jsMapSet m (paramKey p) p) t := by
      simp [paramFold]
    rw [hstep] at he
    rcases ih _ he with hm | ⟨h1, h2, h3⟩
    · by_cases hr : isRefParam p
      · rw [if_pos hr] at hm
        exact Or.inl hm
      · rw [if_neg hr] at hm
        rcases mem_jsMapSet _ _ _ _ hm with h | h
        · refine Or.inr ⟨?_, ?_, ?_⟩
          · rw [h]
            exact List.mem_cons_self p t
          · rw [h]
            exact Bool.eq_false_iff.mpr hr
          · rw [h]
        · exact Or.inl h
    · exact Or.inr ⟨List.mem_cons_of_mem p h1, h2, h3⟩

/-- `OpenAPIParser.normalizeParameter`: schema from the parameter schema
for 3.x, inline type info for 2.0. -/
def normalizeParameter (spec param : Json) : NormalizedParameter :=
  let schema :=
    if isV3 spec then normalizeSchema spec (param.lookup "schema") 0
    else
      .node { emptyFields with
                type := some (match param.lookup "type" with
                  | some v => if v.truthy then v else .str "string"
                  | none => .str "string"),
                format := param.lookup "format",
                enum := param.lookup "enum",
                defaultVal := param.lookup "default" }
  { name := param.lookup "name",
    description := param.lookup "description",
    required := truthyOf param "required",
    deprecated := truthyOf param "deprecated",
    schema := schema,
    exampleVal := param.lookup "example" }

/-- `OpenAPIParser.filterParameters`: keep the parameters whose raw `in`
field is exactly the location, then normalize. -/
def filterParameters (spec : Json) (params : List Json) (location : String) :
    List NormalizedParameter :=
  (params.filter (fun p => strFieldIs p "in" location)).map
    (fun p => normalizeParameter spec p)

/-- First binding of a JSON object (`obj[Object.keys(obj)[0]]`). -/
def firstObjBinding : Json → Option (String × Json)
  | .obj (f :: _) => some f
  | _ => none

/-- `Object.keys` of a JSON object. -/
def objKeys (j : Json) : List String :=
  match j with
  | .obj fs => fs.map (fun f => f.1)
  | _ => []

/-- `OpenAPIParser.parseRequestBody`. -/
def parseRequestBody (spec operation : Json) : Option NormalizedRequestBody :=
  if isV3 spec then
    match operation.lookup "requestBody" with
    | some rb =>
      match rb.lookupTruthy "content" with
      | some content =>
        let firstContent := (firstObjBinding content).map (fun f => f.2)
        some { description := rb.lookup "description",
               required := truthyOf rb "required",
               contentTypes := objKeys content,
               schema := normalizeSchema spec
                 (firstContent.bind (fun c => c.lookup "schema")) 0,
               examples := firstContent.bind (fun c => c.lookup "examples") }
      | none => none
    | none => none
  else
    match (paramsOf operation).find? (fun p => strFieldIs p "in" "body") with
    | some bodyParam =>
      match bodyParam.lookupTruthy "schema" with
      | some schemaV =>
        some { description := bodyParam.lookup "description",
               required := truthyOf bodyParam "required",
               contentTypes := ["application/json"],
               schema := normalizeSchema spec (some schemaV) 0,
               examples := none }
      | none => none
    | none => none

/-- `OpenAPIParser.parseResponses`: one entry per status code, skipping
falsy and `$ref`-valued responses. -/
def parseResponses (spec : Json) (responsesOpt : Option Json) : List NormalizedResponse :=
  match responsesOpt with
  | none => []
  | some responses =>
    if responses.truthy then
      (match responses with | .obj fs => fs | _ => []).filterMap (fun (b : String × Json) =>
        if !b.2.truthy || b.2.hasKey "$ref" then none
        else if isV3 spec then
          let firstContent : Option Json := match b.2.lookupTruthy "content" with
            | some c => (firstObjBinding c).map (fun (f : String × Json) => f.2)
            | none => none
          some { statusCode := b.1,
                 description := (match b.2.lookup "description" with
                   | some v => if v.truthy then v else .str ""
                   | none => .str ""),
                 contentTypes := (match b.2.lookupTruthy "content" with
                   | some c => objKeys c
                   | none => []),
                 schema := match firstContent with
                   | some c =>
                     match c.lookupTruthy "schema" with
                     | some sv => some (normalizeSchema spec (some sv) 0)
                     | none => none
                   | none => none }
        else
          some { statusCode := b.1,
                 description := (match b.2.lookup "description" with
                   | some v => if v.truthy then v else .str ""
                   | none => .str ""),
                 contentTypes := ["application/json"],
                 schema := match b.2.lookupTruthy "schema" with
                   | some sv => some (normalizeSchema spec (some sv) 0)
                   | none => none })
    else []

/-- `OpenAPIParser.normalizeSecurityScheme` (3.x). -/
def normalizeSecurityScheme (name : String) (scheme : Json) : NormalizedSecurity :=
  match scheme.lookup "type" with
  | some (.str "apiKey") =>
    { type := "apiKey", name := name, loc := scheme.lookup "in", scheme := none,
      description := scheme.lookup "description", scopes := none }
  | some (.str "http") =>
    { type := if strFieldIs scheme "scheme" "bearer" then "bearer" else "http",
      name := name, loc := none, scheme := scheme.lookup "scheme",
      description := scheme.lookup "description", scopes := none }
  | some (.str "oauth2") =>
    { type := "oauth2", name := name, loc := none, scheme := none,
      description := scheme.lookup "description", scopes := none }
  | some (.str "openIdConnect") =>
    { type := "openIdConnect", name := name, loc := none, scheme := none,
      description := scheme.lookup "description", scopes := none }
  | _ =>
    { type := "unknown", name := name, loc := none, scheme := none,
      description := scheme.lookup "description", scopes := none }

/-- `OpenAPIParser.normalizeSecuritySchemeV2` (2.0). -/
def normalizeSecuritySchemeV2 (name : String) (scheme : Json) : NormalizedSecurity :=
  match scheme.lookup "type" with
  | some (.str "apiKey") =>
    { type := "apiKey", name := name, loc := scheme.lookup "in", scheme := none,
      description := scheme.lookup "description", scopes := none }
  | some (.str "basic") =>
    { type := "basic", name := name, loc := none, scheme := none,
      description := scheme.lookup "description", scopes := none }
  | some (.str "oauth2") =>
    { type := "oauth2", name := name, loc := none, scheme := none,
      description := scheme.lookup "description", scopes := none }
  | _ =>
    { type := "unknown", name := name, loc := none, scheme := none,
      description := scheme.lookup "description", scopes := none }

/-- `OpenAPIParser.getSecurityScheme`: resolve a requirement name against
the named scheme definitions of the document. -/
def getSecurityScheme (spec : Json) (name : String) : Option NormalizedSecurity :=
  if isV3 spec then
    match ((spec.lookup "components").bind (fun c => c.lookup "securitySchemes")).bind
        (fun ss => ss.lookup name) with
    | some scheme =>
      if scheme.truthy then some (normalizeSecurityScheme name scheme) else none
    | none => none
  else
    match (spec.lookup "securityDefinitions").bind (fun sd => sd.lookup name) with
    | some scheme =>
      if scheme.truthy then some (normalizeSecuritySchemeV2 name scheme) else none
    | none => none

/-- `OpenAPIParser.parseSecurity`: resolve each requirement entry,
silently dropping unresolvable names. -/
def parseSecurity (spec : Json) (securityOpt : Option Json) : List NormalizedSecurity :=
  match securityOpt with
  | none => []
  | some sec =>
    if sec.truthy then
      (match sec with | .arr reqs => reqs | _ => []).flatMap (fun req =>
        (match req with | .obj fs => fs | _ => []).filterMap (fun (b : String × Json) =>
          (getSecurityScheme spec b.1).map (fun (sch : NormalizedSecurity) => { sch with scopes := some b.2 })))
    else []

/-- `OpenAPIParser.parseSecuritySchemes`. -/
def parseSecuritySchemes (spec : Json) : List (String × NormalizedSecurity) :=
  if isV3 spec then
    (match (spec.lookup "components").bind (fun c => c.lookup "securitySchemes") with
     | some (.obj fs) => fs
     | _ => []).filterMap (fun (b : String × Json) =>
        if b.2.hasKey "$ref" then none
        else some (b.1, normalizeSecurityScheme b.1 b.2))
  else
    (match spec.lookup "securityDefinitions" with
     | some (.obj fs) => fs
     | _ => []).map (fun (b : String × Json) => (b.1, normalizeSecuritySchemeV2 b.1 b.2))

/-- The string tags of an operation (`operation.tags || []`). -/
def tagsOf (operation : Json) : List String :=
  match operation.lookup "tags" with
  | some (.arr xs) => xs.filterMap (fun t => match t with | .str s => some s | _ => none)
  | _ => []

/-- `OpenAPIParser.parseOperation`: one normalized endpoint. -/
def parseOperation (spec : Json) (path method : String)
    (operation pathItem : Json) : NormalizedEndpoint :=
  let parameters := mergeParams (paramsOf pathItem) (paramsOf operation)
  { path := path,
    method := method,
    operationId := operation.strField "operationId",
    summary := operation.strField "summary",
    description := operation.strField "description",
    tags := tagsOf operation,
    deprecated := truthyOf operation "deprecated",
    pathParameters := filterParameters spec parameters "path",
    queryParameters := filterParameters spec parameters "query",
    headerParameters := filterParameters spec parameters "header",
    cookieParameters := filterParameters spec parameters "cookie",
    requestBody := parseRequestBody spec operation,
    responses := parseResponses spec (operation.lookup "responses"),
    security := parseSecurity spec (operation.lookup "security") }

/-- The eight standard HTTP methods checked per path item. -/
def httpMethods : List String :=
  ["get", "post", "put", "patch", "delete", "options", "head", "trace"]

/-- `OpenAPIParser.parseEndpoints`: every truthy operation of every truthy
path item, in document order. -/
def parseEndpoints (spec : Json) : List NormalizedEndpoint :=
  (match spec.lookup "paths" with | some (.obj fs) => fs | _ => []).flatMap (fun (pq : String × Json) =>
    if pq.2.truthy then
      httpMethods.filterMap (fun m =>
        match pq.2.lookupTruthy m with
        | some operation => some (parseOperation spec pq.1 m operation pq.2)
        | none => none)
    else [])

/-- `OpenAPIParser.getServers`. -/
def getServers (spec : Json) : List (Option Json × Option Json) :=
  if isV3 spec then
    (match spec.lookup "servers" with | some (.arr xs) => xs | _ => []).map
      (fun (s : Json) => (s.lookup "url", s.lookup "description"))
  else
    match getBaseUrl spec with
    | some b => [(some (.str b), none)]
    | none => []

/-- Input of `OpenAPIParser.parse`: the raw document plus the fetch
metadata produced by the fetcher. -/
structure FetchResult where
  spec : Json
  fetchedAt : Nat
  sourceUrl : String
  specVersion : String

/-- `OpenAPIParser.parse`: assemble the normalized description. -/
def parse (fr : FetchResult) : NormalizedApiSpec :=
  let endpoints := parseEndpoints fr.spec
  { title := (fr.spec.lookup "info").bind (fun i => i.lookup "title"),
    version := (fr.spec.lookup "info").bind (fun i => i.lookup "version"),
    description := (fr.spec.lookup "info").bind (fun i => i.lookup "description"),
    baseUrl := getBaseUrl fr.spec,
    servers := getServers fr.spec,
    endpoints := endpoints,
    securitySchemes := parseSecuritySchemes fr.spec,
    totalEndpoints := endpoints.length,
    fetchedAt := fr.fetchedAt,
    sourceUrl := fr.sourceUrl,
    specVersion := fr.specVersion }

/-- C2: every description produced by `parse` stores as `totalEndpoints`
the length of its endpoint list — the two are computed from the very same
list. -/
theorem claim_C2_endpoint_count (fr : FetchResult) :
    (parse fr).totalEndpoints = (parse fr).endpoints.length := rfl

theorem findLastKeyParam_eq_of_mem (l : List Json) (p : Json)
    (hnd : ((l.filter (fun q => !isRefParam q)).map paramKey).Nodup)
    (hp : p ∈ l) (hr : isRefParam p = false) :
    findLastKeyParam l (paramKey p) = some p := by
  unfold findLastKeyParam
  have hsome : (l.reverse.find? (fun q => !isRefParam q && paramKey q == paramKey p)).isSome := by
    rw [List.find?_isSome]
    exact ⟨p, List.mem_reverse.mpr hp, by simp [hr]⟩
  obtain ⟨q, hq⟩ := Option.isSome_iff_exists.mp hsome
  have hpred := List.find?_some hq
  have hqmem : q ∈ l := List.mem_reverse.mp (List.mem_of_find?_eq_some hq)
  simp only [Bool.and_eq_true, Bool.not_eq_true', beq_iff_eq] at hpred
  obtain ⟨hqr, hkeq⟩ := hpred
  have hqp : q = p :=
    List.inj_on_of_nodup_map hnd
      (List.mem_filter.mpr ⟨hqmem, by simp [hqr]⟩)
      (List.mem_filter.mpr ⟨hp, by simp [hr]⟩) hkeq
  rw [hq, hqp]

theorem findLastKeyParam_eq_none (l : List Json) (k : String)
    (h : ∀ q ∈ l, isRefParam q = false → paramKey q ≠ k) :
    findLastKeyParam l k = none := by
  unfold findLastKeyParam
  rw [List.find?_eq_none]
  intro x hx
  simp only [Bool.and_eq_true, Bool.not_eq_true', beq_iff_eq, not_and]
  intro h1 h2
  exact h x (List.mem_reverse.mp hx) h1 h2

theorem findLastKeyParam_append (a b : List Json) (k : String) :
    findLastKeyParam (a ++ b) k
      = (findLastKeyParam b k).or (findLastKeyParam a k) := by
  unfold findLastKeyParam
  rw [List.reverse_append, List.find?_append]

/-- C9: the merged parameter map of `parseOperation` drops every
`$ref`-only entry, keeps exactly the non-reference parameters of the two
levels keyed by (location, name), resolves a key collision in favour of
the operation level, and keeps a path-level parameter whenever no
operation-level parameter shares its key (assuming, as the claim does,
that keys are unique within each level); the endpoint parameter lists are
built from this merged list. -/
theorem claim_C9_parameter_overlay (pathPs opPs : List Json)
    (hpu : ((pathPs.filter (fun q => !isRefParam q)).map paramKey).Nodup)
    (hou : ((opPs.filter (fun q => !isRefParam q)).map paramKey).Nodup) :
    (∀ p ∈ opPs, isRefParam p = false →
        lookupKey (paramKey p) (paramFold [] (pathPs ++ opPs)) = some p)
    ∧ (∀ p ∈ pathPs, isRefParam p = false →
        (∀ q ∈ opPs, isRefParam q = false → paramKey q ≠ paramKey p) →
        lookupKey (paramKey p) (paramFold [] (pathPs ++ opPs)) = some p)
    ∧ (∀ e ∈ paramFold [] (pathPs ++ opPs),
        (e.2 ∈ pathPs ∨ e.2 ∈ opPs) ∧ isRefParam e.2 = false ∧ e.1 = paramKey e.2)
    ∧ mergeParams pathPs opPs = (paramFold [] (pathPs ++ opPs)).map (fun e => e.2)
    ∧ (∀ (spec : Json) (path method : String) (operation pathItem : Json),
        (parseOperation spec path method operation pathItem).pathParameters
          = filterParameters spec
              (mergeParams (paramsOf pathItem) (paramsOf operation)) "path"
        ∧ (parseOperation spec path method operation pathItem).queryParameters
          = filterParameters spec
              (mergeParams (paramsOf pathItem) (paramsOf operation)) "query"
        ∧ (parseOperation spec path method operation pathItem).headerParameters
          = filterParameters spec
              (mergeParams (paramsOf pathItem) (paramsOf operation)) "header"
        ∧ (parseOperation spec path method operation pathItem).cookieParameters
          = filterParameters spec
              (mergeParams (paramsOf pathItem) (paramsOf operation)) "cookie") := by
  refine ⟨?_, ?_, ?_, rfl, fun _ _ _ _ _ => ⟨rfl, rfl, rfl, rfl⟩⟩
  · intro p hp hr
    rw [lookupKey_paramFold, findLastKeyParam_append,
      findLastKeyParam_eq_of_mem opPs p hou hp hr]
    rfl
  · intro p hp hr hq
    rw [lookupKey_paramFold, findLastKeyParam_append,
      findLastKeyParam_eq_none opPs (paramKey p) hq,
      findLastKeyParam_eq_of_mem pathPs p hpu hp hr]
    rfl
  · intro e he
    rcases paramFold_mem _ _ _ he with hm | ⟨h1, h2, h3⟩
    · exact absurd hm (List.not_mem_nil e)
    · rcases List.mem_append.mp h1 with h | h
      exacts [⟨Or.inl h, h2, h3⟩, ⟨Or.inr h, h2, h3⟩]

/-- A path-item-level query parameter named limit. -/
def wPathParam : Json :=
  .obj [("in", .str "query"), ("name", .str "limit"), ("kind", .num 1)]

/-- An operation-level query parameter with the same (location, name)
key. -/
def wOpParam : Json :=
  .obj [("in", .str "query"), ("name", .str "limit"), ("kind", .num 2)]

/-- A reference-only parameter entry. -/
def wRefParam : Json :=
  .obj [("$ref", .str "#/parameters/limit")]

/-- C9 witness: with one colliding key per level and a `$ref` entry, the
operation-level parameter wins the merged map. -/
theorem claim_C9_parameter_overlay_witness :
    lookupKey (paramKey wOpParam)
        (paramFold [] ([wPathParam] ++ [wOpParam, wRefParam])) = some wOpParam := by
  have h := claim_C9_parameter_overlay [wPathParam] [wOpParam, wRefParam]
    (by decide) (by decide)
  exact h.1 wOpParam (List.mem_cons_self _ _) (by decide)

/-! ## Discovery and Fetch component (`OpenAPIFetcher`, `src/fetcher/index.ts`) -/

/-- `OpenAPIFetcher.isHtmlResponse`: the declared content type contains
text/html, or the trimmed lowercased body starts with the HTML doctype or
an html tag, or it contains both an opening head and an opening body
tag. -/
def isHtmlResponse (data contentType : String) : Bool :=
  let trimmed := jsToLower (jsTrim data)
  jsIncludes contentType "text/html"
  || jsStartsWith trimmed "<!doctype html"
  || jsStartsWith trimmed "<html"
  || (jsIncludes trimmed "<head" && jsIncludes trimmed "<body")

/-- Claim-side HTML classification as the claim states it: the content
type contains "html" (not "text/html"), with the same body tests. -/
def claimHtmlOriginal (data contentType : String) : Bool :=
  let trimmed := jsToLower (jsTrim data)
  jsIncludes contentType "html"
  || jsStartsWith trimmed "<!doctype html"
  || jsStartsWith trimmed "<html"
  || (jsIncludes trimmed "<head" && jsIncludes trimmed "<body")

/-- Claim-side HTML classification after the amendment: the content-type
test looks for the substring text/html. -/
def claimHtmlAmended (data contentType : String) : Bool :=
  let trimmed := jsToLower (jsTrim data)
  jsIncludes contentType "text/html"
  || jsStartsWith trimmed "<!doctype html"
  || jsStartsWith trimmed "<html"
  || (jsIncludes trimmed "<head" && jsIncludes trimmed "<body")

/-- C7 counterexample: a response with declared content type
application/xhtml+xml and body x is not classified as HTML by the code
(the test is for text/html), but the claim classifies it as HTML since
the content type contains "html". -/
theorem claim_C7_counterexample :
    isHtmlResponse "x" "application/xhtml+xml" = false
    ∧ claimHtmlOriginal "x" "application/xhtml+xml" = true := by
  exact ⟨by decide, by decide⟩

/-- C7 (amended): a response is classified as an HTML documentation page
if and only if the declared content type contains text/html, or the
trimmed body starts with the HTML doctype or an html tag, or the body
contains both an opening head tag and an opening body tag. -/
theorem claim_C7_html_detection (data contentType : String) :
    isHtmlResponse data contentType = claimHtmlAmended data contentType := rfl

/-- `OpenAPIFetchError`: message plus machine-readable error kind. -/
structure OpenAPIFetchErrorE where
  message : String
  code : String

/-- The possible inputs of `handleFetchError`: an already-classified
fetch error, an axios error carrying the HTTP response status/text and
the network error code, a generic `Error`, or anything else. -/
inductive UpstreamError where
  | fetchE (e : OpenAPIFetchErrorE)
  | axiosE (status : Option Nat) (statusText : String) (errCode : Option String)
  | genericE (msg : String)
  | unknownE

/-- Template rendering of the optional status (`${status}`). -/
def optNatStr : Option Nat → String
  | some n => toString n
  | none => "undefined"

/-- The literal tail of the authentication-failure message. -/
def authMsgTail : String :=
  "). This API requires authentication. Use the authToken parameter: \"Please analyze the API at [URL] with auth token [YOUR_TOKEN]\""

/-- The literal tail of the not-found message. -/
def notFoundMsgTail : String :=
  ". Try using the Swagger UI URL (e.g., /swagger-ui.html) and I will try to find the spec automatically."

/-- `OpenAPIFetcher.handleFetchError`: wrap any upstream failure as an
`OpenAPIFetchError`, checking 401/403 before 404 before the network error
codes. -/
def handleFetchError (url : String) : UpstreamError → OpenAPIFetchErrorE
  | .fetchE e => e
  | .axiosE status statusText errCode =>
    if status = some 401 ∨ status = some 403 then
      { message := "Authentication failed ("
          ++ (optNatStr status ++ (" " ++ (statusText ++ authMsgTail))),
        code := "AUTH_ERROR" }
    else if status = some 404 then
      { message := "OpenAPI spec not found at " ++ (url ++ notFoundMsgTail),
        code := "NOT_FOUND" }
    else if errCode = some "ECONNABORTED" ∨ errCode = some "ETIMEDOUT" then
      { message := "Request timeout fetching OpenAPI spec from " ++ url,
        code := "TIMEOUT" }
    else if errCode = some "ENOTFOUND" ∨ errCode = some "ECONNREFUSED" then
      { message := "Cannot connect to " ++ (url ++ (": "
          ++ (match errCode with | some c => c | none => "undefined"))),
        code := "CONNECTION_ERROR" }
    else
      { message := "HTTP error fetching OpenAPI spec: "
          ++ (optNatStr status ++ (" " ++ statusText)),
        code := "HTTP_ERROR" }
  | .genericE msg => { message := msg, code := "UNKNOWN_ERROR" }
  | .unknownE =>
    { message := "Unknown error fetching OpenAPI spec", code := "UNKNOWN_ERROR" }

theorem jsIncludes_append_right (s t sub : String)
    (h : jsIncludes t sub = true) : jsIncludes (s ++ t) sub = true := by
  unfold jsIncludes at h ⊢
  rw [String.data_append]
  exact listContainsSub_append_right s.data t.data sub.data h

theorem string_append_ne (l1 r1 l2 r2 : String) (n : Nat)
    (hn1 : n ≤ l1.data.length) (hn2 : n ≤ l2.data.length)
    (hne : l1.data.take n ≠ l2.data.take n) : l1 ++ r1 ≠ l2 ++ r2 := by
  intro h
  have hd := congrArg String.data h
  rw [String.data_append, String.data_append] at hd
  have ht := congrArg (List.take n) hd
  rw [List.take_append_of_le_length hn1, List.take_append_of_le_length hn2] at ht
  exact hne ht

/-- C8: a direct fetch failing with HTTP 401 or 403 is classified as the
authentication kind (AUTH_ERROR, never NOT_FOUND) and its message
mentions both the authToken parameter and an auth token; a 404 yields the
distinct NOT_FOUND kind with a different message, so the two kinds are
distinguishable by the caller. -/
theorem claim_C8_auth_vs_notfound (url url2 statusText statusText2 : String)
    (errCode errCode2 : Option String) (status : Option Nat)
    (h : status = some 401 ∨ status = some 403) :
    (handleFetchError url (.axiosE status statusText errCode)).code = "AUTH_ERROR"
    ∧ (handleFetchError url (.axiosE status statusText errCode)).code ≠ "NOT_FOUND"
    ∧ jsIncludes (handleFetchError url (.axiosE status statusText errCode)).message
        "authToken" = true
    ∧ jsIncludes (handleFetchError url (.axiosE status statusText errCode)).message
        "auth token" = true
    ∧ (handleFetchError url2 (.axiosE (some 404) statusText2 errCode2)).code
        = "NOT_FOUND"
    ∧ (handleFetchError url (.axiosE status statusText errCode)).message
        ≠ (handleFetchError url2 (.axiosE (some 404) statusText2 errCode2)).message := by
  have h404 : ¬((some 404 : Option Nat) = some 401 ∨ (some 404 : Option Nat) = some 403) := by
    decide
  have hA : handleFetchError url (.axiosE status statusText errCode)
      = { message := "Authentication failed ("
            ++ (optNatStr status ++ (" " ++ (statusText ++ authMsgTail))),
          code := "AUTH_ERROR" } := by
    simp only [handleFetchError, if_pos h]
  have hN : handleFetchError url2 (.axiosE (some 404) statusText2 errCode2)
      = { message := "OpenAPI spec not found at " ++ (url2 ++ notFoundMsgTail),
          code := "NOT_FOUND" } := by
    simp only [handleFetchError]
    rw [if_neg h404]
    simp
  rw [hA, hN]
  refine ⟨rfl, show ("AUTH_ERROR" : String) ≠ "NOT_FOUND" by decide, ?_, ?_, rfl, ?_⟩
  · exact jsIncludes_append_right _ _ _ (jsIncludes_append_right _ _ _
      (jsIncludes_append_right _ _ _ (jsIncludes_append_right _ _ _ (by decide))))
  · exact jsIncludes_append_right _ _ _ (jsIncludes_append_right _ _ _
      (jsIncludes_append_right _ _ _ (jsIncludes_append_right _ _ _ (by decide))))
  · exact string_append_ne _ _ _ _ 1 (by decide) (by decide) (by decide)

/-- C8 witness: the claim instantiated at a concrete 401 response. -/
theorem claim_C8_auth_vs_notfound_witness :
    (handleFetchError "https://api.example.com/spec"
        (.axiosE (some 401) "Unauthorized" none)).code = "AUTH_ERROR" :=
  (claim_C8_auth_vs_notfound "https://api.example.com/spec"
    "https://api.example.com/spec" "Unauthorized" "Not Found" none none
    (some 401) (Or.inl rfl)).1

end Knotty
